import Mathlib

/-!
Verification of the mode-disentanglement trainer
(`mode_disent_no_ssm/agent.py`, `mode_disent_no_ssm/test/action_sampler.py`).

The Python code is shallowly embedded: the tensor computations performed by
the external deep-learning library (obs encoder forward pass, posterior and
prior sampling, KL divergence, MMD) enter the model as abstract scalar
inputs or function parameters, while the control flow, arithmetic loss
composition, counter bookkeeping and state transitions that the repository
itself implements are translated line by line. Python while-loops become
fuel-indexed recursions returning `Option`; code paths that raise become
`Except`. Floating point arithmetic is modelled over the rationals.
-/

namespace ModeDisent

/-! ## Loss composition, `DisentTrainerNoSSM._calc_loss` (agent.py lines 186-200) -/

/-- Scalar case of `torch.nn.functional.mse_loss`: the mean squared error of
two zero-dimensional tensors is the squared difference. -/
def mse_loss (a b : ℚ) : ℚ := (a - b) ^ 2

/-- The value returned by `_calc_loss`, given the batch statistics computed
by the network forward passes: reconstruction log-likelihood `ll`, mean
squared error `mse`, KL divergence `kld` and maximum mean discrepancy `mmd`,
together with the info-loss hyperparameters.  Mirrors agent.py lines
186-200: the classic beta-VAE loss is computed but unused, `info_loss` is
built incrementally and the KL set-point control term is added only when
`kld_diff_desired` is configured. -/
def calcLossReturn (ll mse kld mmd alpha lamda : ℚ) (kldDiffDesired : Option ℚ) : ℚ :=
  let beta : ℚ := 1
  let classicLoss := beta * kld - ll
  let kldInfo := (1 - alpha) * kld
  let mmdInfo := (alpha + lamda - 1) * mmd
  let infoLoss := mse + kldInfo + mmdInfo
  let infoLoss2 :=
    match kldDiffDesired with
    | none => infoLoss
    | some kldDesired => infoLoss + (7 / 100) * mse_loss kldDesired kld
  let _ := classicLoss
  infoLoss2

/-- The composite loss exactly as the specification words it:
MSE + (1-alpha)*KL + (alpha+lambda-1)*MMD, plus 0.07*(desired - actual)^2
when a KL set-point is configured, and nothing else. -/
def specCompositeLoss (mse kld mmd alpha lamda : ℚ) (kldDiffDesired : Option ℚ) : ℚ :=
  mse + (1 - alpha) * kld + (alpha + lamda - 1) * mmd +
    (match kldDiffDesired with
     | none => 0
     | some d => (7 / 100) * (d - kld) ^ 2)

/-! ## Mode-map plotting, `_plot_mode_map` (agent.py lines 281-328) -/

/-- The color palette hard-coded in `_plot_mode_map` (agent.py lines 297-298). -/
def plotColors : List String :=
  ["b", "g", "r", "c", "m", "y", "k", "darkorange", "gray", "lightgreen"]

/-- Outcome of a `_plot_mode_map` call. -/
inductive PlotModeMapResult where
  | skippedWarning
  | raisedValueError
  | figure
  deriving DecidableEq

/-- Control flow of `_plot_mode_map` (agent.py lines 291-303): when the mode
dimension differs from 2 it warns and returns `None`; otherwise, when there
are more skills than palette colors it raises `ValueError`; otherwise it
builds and returns the figure. -/
def plotModeMap (modeDim numSkills : Nat) : PlotModeMapResult :=
  if modeDim ≠ 2 then PlotModeMapResult.skippedWarning
  else if numSkills > plotColors.length then PlotModeMapResult.raisedValueError
  else PlotModeMapResult.figure

/-- An uncaught Python exception escaping a learn step. -/
inductive TrainError where
  | valueErrorPlot
  deriving DecidableEq

/-- The statistics of one sampled batch as computed by the forward passes
inside `_calc_loss` (log-likelihood, MSE, KLD, MMD). -/
structure BatchStats where
  ll : ℚ
  mse : ℚ
  kld : ℚ
  mmd : ℚ

/-- The predicate `_is_interval` (agent.py lines 351-353). -/
def isInterval (logInterval steps : Nat) : Bool := steps % logInterval == 0

/-- Whole of `_calc_loss` (agent.py lines 156-227) at the control-flow
level: the loss value is computed, then on a logging interval the mode map
is plotted, where a raised `ValueError` propagates out of the call;
otherwise the loss is returned. -/
def calc_loss (modeDim numSkills logInterval learnSteps : Nat) (st : BatchStats)
    (alpha lamda : ℚ) (kldDiffDesired : Option ℚ) : Except TrainError ℚ :=
  let loss := calcLossReturn st.ll st.mse st.kld st.mmd alpha lamda kldDiffDesired
  if isInterval logInterval learnSteps then
    match plotModeMap modeDim numSkills with
    | PlotModeMapResult.raisedValueError => Except.error TrainError.valueErrorPlot
    | _ => Except.ok loss
  else
    Except.ok loss

/-- One `_learn_step` (agent.py lines 148-154): sample a batch (abstracted
as `stats` indexed by the current learn step), compute the loss, update the
parameters, increment `learn_steps`.  An exception propagates. -/
def learn_step (modeDim numSkills logInterval : Nat) (stats : Nat → BatchStats)
    (alpha lamda : ℚ) (kldDiffDesired : Option ℚ) (learnSteps : Nat) :
    Except TrainError Nat :=
  match calc_loss modeDim numSkills logInterval learnSteps (stats learnSteps)
      alpha lamda kldDiffDesired with
  | Except.error e => Except.error e
  | Except.ok _ => Except.ok (learnSteps + 1)

/-- The training loop `_train` (agent.py lines 144-146): `trainSteps`
consecutive learn steps; an exception aborts the loop. -/
def train (modeDim numSkills logInterval : Nat) (stats : Nat → BatchStats)
    (alpha lamda : ℚ) (kldDiffDesired : Option ℚ) (learnSteps trainSteps : Nat) :
    Except TrainError Nat :=
  match trainSteps with
  | 0 => Except.ok learnSteps
  | t + 1 =>
    match learn_step modeDim numSkills logInterval stats alpha lamda kldDiffDesired
        learnSteps with
    | Except.error e => Except.error e
    | Except.ok ls => train modeDim numSkills logInterval stats alpha lamda
        kldDiffDesired ls t

/-! ## Skill update expression (agent.py line 239) -/

/-- The update `skill = min(skill + 1, (skill + 1) % self.num_skills)`
performed after each rollout in `_sample_sequences`. -/
def skillUpdate (skill numSkills : Nat) : Nat :=
  min (skill + 1) ((skill + 1) % numSkills)

/-! ## Action sampler (`mode_disent_no_ssm/test/action_sampler.py`) -/

/-- A Python `TypeError` raised by positional-argument binding. -/
inductive PyError where
  | missingPositionalArg
  deriving DecidableEq

/-- State of an `ActionSamplerNoSSM` instance.  The external mode model and
torch device are represented by the functions the sampler actually invokes
on them: `actionDecoder` is `mode_model.action_decoder` reduced to its
returned action sample, `samplePrior` is the sample drawn by
`mode_model.sample_mode_prior(batch_size=1)`, and `toDevice` is
`tensor.to(self.device)`.  `mode` and `modeNext` are the fields `_mode` and
`_mode_next`, both `None` right after construction. -/
structure ActionSamplerNoSSM (T : Type) where
  actionDecoder : T → T → T
  samplePrior : T
  toDevice : T → T
  mode : Option T
  modeNext : Option T

namespace ActionSamplerNoSSM

variable {T : Type}

/-- The method `_set_mode` (action_sampler.py lines 25-27). -/
def set_mode (s : ActionSamplerNoSSM T) (m : T) : ActionSamplerNoSSM T :=
  { s with mode := some (s.toDevice m), modeNext := some (s.toDevice m) }

/-- The method `reset` (action_sampler.py lines 18-23). -/
def reset (s : ActionSamplerNoSSM T) (m : Option T) : ActionSamplerNoSSM T :=
  match m with
  | none => s.set_mode s.samplePrior
  | some m => s.set_mode m

/-- The method `set_mode_next` (action_sampler.py lines 29-30). -/
def set_mode_next (s : ActionSamplerNoSSM T) (m : T) : ActionSamplerNoSSM T :=
  { s with modeNext := some (s.toDevice m) }

/-- The method `update_mode_to_next` (action_sampler.py lines 32-33). -/
def update_mode_to_next (s : ActionSamplerNoSSM T) : ActionSamplerNoSSM T :=
  { s with mode := s.modeNext }

/-- Python positional binding for the method
`_get_action(self, mode, state_rep)` (action_sampler.py lines 35-50): a call
with exactly two positional arguments runs the body, which returns the
decoded action sample `action_decoder(state_rep_seq=state_rep,
mode_sample=mode).samples`; any other number of positional arguments raises
`TypeError` before the body runs. -/
def get_action_args (s : ActionSamplerNoSSM T) (args : List T) : Except PyError T :=
  match args with
  | [m, stateRep] => Except.ok (s.actionDecoder stateRep m)
  | _ => Except.error PyError.missingPositionalArg

/-- The method `__call__` (action_sampler.py lines 52-57).  Its body is
`return self._get_action(state_rep)`: a single positional argument is
passed to the two-parameter method `_get_action`. -/
def call (s : ActionSamplerNoSSM T) (stateRep : T) : Except PyError T :=
  s.get_action_args [stateRep]

end ActionSamplerNoSSM

/-! ## Skill-balanced sequence sampling (agent.py lines 229-279)

The per-skill step counters `self.steps` are a list of naturals, one per
skill.  The environment interaction, the skill policy and the stored
transitions do not influence the counters or the loop control, so they are
dropped from the state; what remains is translated faithfully: the guard of
the inner while-loop, the counter increment, the append/commit signal from
the replay memory, the break, the outer while-loop over the total count and
the skill update.  Python while-loops become fuel-indexed recursion
returning `none` on fuel exhaustion. -/

/-- The value `np.max(self.steps)` (agent.py line 257). -/
def listMax (xs : List Nat) : Nat := xs.foldr max 0

/-- The minimum of a nonempty list of counters, `np.min`; 0 on the empty
list. -/
def listMin : List Nat → Nat
  | [] => 0
  | x :: xs => xs.foldr min x

/-- Incrementing the counter `step_cnt[skill] += k` on a Python/NumPy
array: out-of-range indices leave the list unchanged (they cannot occur in
the trainer, where `skill < num_skills = len(steps)`). -/
def addAt (xs : List Nat) (i k : Nat) : List Nat := xs.set i (xs.getD i 0 + k)

/-- Modelled from the spec: `MyLazyMemory.append` (class `MyLazyMemory`
from `mode_disent/memory/memory.py`, which is not part of the analysed
sources) appends one transition to the in-progress sequence buffer and,
when the buffer reaches `num_sequences` transitions, commits it, resets the
buffer and returns `true`; otherwise it returns `false` (spec section 4.1).
State is the buffer length; the stored transitions themselves do not affect
the sampling control flow. -/
def memoryAppend (numSequences bufLen : Nat) : Bool × Nat :=
  if bufLen + 1 == numSequences then (true, 0) else (false, bufLen + 1)

/-- The while-loop of `_sample_equal_skill_dist` (agent.py lines 257-275):
while `self.steps[skill] <= np.max(self.steps)`, step the environment,
increment `step_cnt[skill]`, append to memory, and break as soon as the
append commits a full sequence. -/
def sampleEqualSkillDistLoop (n : Nat) (steps : List Nat) (skill bufLen fuel : Nat) :
    Option (List Nat) :=
  if steps.getD skill 0 ≤ listMax steps then
    match memoryAppend n bufLen with
    | (true, _) => some (addAt steps skill 1)
    | (false, buf2) =>
      match fuel with
      | 0 => none
      | fuel + 1 => sampleEqualSkillDistLoop n (addAt steps skill 1) skill buf2 fuel
  else
    some steps

/-- The method `_sample_equal_skill_dist` (agent.py lines 245-279): the
call to `memory.set_initial_state(obs)` clears the partial in-progress
sequence, so the loop starts with an empty buffer. -/
def sample_equal_skill_dist (n : Nat) (steps : List Nat) (skill fuel : Nat) :
    Option (List Nat) :=
  sampleEqualSkillDistLoop n steps skill 0 fuel

/-- The while-loop of `_sample_sequences` (agent.py lines 233-241): while
the summed counters are below `min_steps`, run one per-skill rollout, then
update the skill.  Besides the final counters it also returns the trace of
counter values at each pause point, i.e. after each return from
`_sample_equal_skill_dist`. -/
def sampleSequencesLoop (m n minSteps : Nat) (steps : List Nat) (skill fuel : Nat) :
    Option (List Nat × List (List Nat)) :=
  if steps.sum < minSteps then
    match fuel with
    | 0 => none
    | fuel + 1 =>
      match sample_equal_skill_dist n steps skill n with
      | none => none
      | some steps2 =>
        match sampleSequencesLoop m n minSteps steps2 (skillUpdate skill m) fuel with
        | none => none
        | some (final, trace) => some (final, steps2 :: trace)
  else
    some (steps, [])

/-- The method `_sample_sequences` (agent.py lines 229-243) for `m` skills,
sequence length `n` and threshold `minSteps`: the counters start at
`np.zeros(num_skills)` and the first skill is 0. -/
def sample_sequences (m n minSteps fuel : Nat) : Option (List Nat × List (List Nat)) :=
  sampleSequencesLoop m n minSteps (List.replicate m 0) 0 fuel

/-- The round-robin counter profile reached by the sampling phase: the
first `j` skills have finished `k + 1` rollouts of `n` steps each, the
remaining `m - j` skills have finished `k`. -/
def roundRobinProfile (m n k j : Nat) : List Nat :=
  List.replicate j ((k + 1) * n) ++ List.replicate (m - j) (k * n)

/-! ## Trainer state and seeding (agent.py lines 25-131 and 330-334) -/

/-- The trainer fields that can influence a `_calc_loss` call, together
with peripheral fields (`runId`, `logDirId`) that must not.  The random
generator states set by `torch.manual_seed`, `np.random.seed` and
`env.seed` are modelled as naturals determined by the seed; the learned
parameters of the observation encoder and the mode latent model are
abstract parameter-snapshot identifiers. -/
structure TrainerState where
  seed : Nat
  torchRngState : Nat
  npRngState : Nat
  envRngState : Nat
  alpha : ℚ
  lamda : ℚ
  kldDiffDesired : Option ℚ
  obsEncoderParams : Nat
  modeModelParams : Nat
  runId : Nat
  logDirId : Nat
  learnSteps : Nat

/-- The method `_set_seed` (agent.py lines 330-334), called once at
construction: it stores the seed and deterministically seeds the torch,
numpy and environment generators from it. -/
def set_seed (seed : Nat) (t : TrainerState) : TrainerState :=
  { t with
    seed := seed
    torchRngState := seed
    npRngState := seed
    envRngState := seed }

/-- One `_calc_loss` call at the trainer level: the forward passes
(observation encoder, posterior and prior sampling, KL divergence, MMD,
action decoding) are a deterministic function of the encoder parameters,
the mode-model parameters, the sampled batch and the torch generator state,
abstracted as `forward`; the returned statistics are then composed into the
info-VAE loss exactly as in `calcLossReturn`. -/
def calc_loss_trainer (forward : Nat → Nat → Nat → Nat → BatchStats)
    (t : TrainerState) (batch : Nat) : ℚ :=
  let st := forward t.obsEncoderParams t.modeModelParams batch t.torchRngState
  calcLossReturn st.ll st.mse st.kld st.mmd t.alpha t.lamda t.kldDiffDesired

end ModeDisent

namespace ModeDisent

/-! ## Theorems -/

/-- C1: for every sampled batch the composite loss returned by `_calc_loss`
equals MSE + (1-alpha)*KL + (alpha+lambda-1)*MMD, plus the penalty
0.07*(desired_KL - actual_KL)^2 exactly when a KL set-point is configured;
no other term (in particular not the computed-but-unused classic beta-VAE
loss) contributes. -/
theorem calc_loss_composite (ll mse kld mmd alpha lamda : ℚ) (d : Option ℚ) :
    calcLossReturn ll mse kld mmd alpha lamda d =
      specCompositeLoss mse kld mmd alpha lamda d := by
  cases d with
  | none => simp [calcLossReturn, specCompositeLoss]
  | some dv => simp [calcLossReturn, specCompositeLoss, mse_loss]

/-- C2: evaluation of the code at the failing input.  `__call__` passes a
single positional argument to the two-parameter method `_get_action`, so for
every sampler state and every state representation the call raises
`TypeError` instead of returning a decoded action. -/
theorem call_raises_type_error (T : Type) (s : ActionSamplerNoSSM T) (stateRep : T) :
    s.call stateRep = Except.error PyError.missingPositionalArg := rfl

/-- C5: the per-rollout skill update `min(skill + 1, (skill + 1) %
num_skills)` advances to the next skill wrapping modulo the number of
skills, for every skill index below `num_skills`. -/
theorem skill_update_wraps (s n : Nat) (h : s < n) :
    skillUpdate s n = (s + 1) % n :=
  min_eq_right (Nat.mod_le _ _)

/-- Witness for C5 at skill 1 of 2: the update wraps back to skill 0. -/
theorem skill_update_wraps_witness : 1 < 2 ∧ skillUpdate 1 2 = (1 + 1) % 2 :=
  ⟨by decide, skill_update_wraps 1 2 (by decide)⟩

/-- C6 counterexample: with 11 skills (more than the 10 palette colors) but
mode dimension 3, `_plot_mode_map` returns after the dimension warning and
never reaches the palette check, so no error is raised. -/
theorem plot_palette_claim_fails :
    plotModeMap 3 11 ≠ PlotModeMapResult.raisedValueError := by decide

/-- C6 (amended): when the mode dimension equals 2, so that plotting is
attempted, a skill count exceeding the 10-color palette makes
`_plot_mode_map` raise a `ValueError`, and the exception propagates out of
`_calc_loss` at the very first logging step: fatal, no retry. -/
theorem plot_palette_fatal (modeDim numSkills : Nat)
    (hdim : modeDim = 2) (hskills : plotColors.length < numSkills) :
    plotModeMap modeDim numSkills = PlotModeMapResult.raisedValueError ∧
    ∀ (logInterval : Nat) (st : BatchStats) (alpha lamda : ℚ) (d : Option ℚ),
      calc_loss modeDim numSkills logInterval 0 st alpha lamda d =
        Except.error TrainError.valueErrorPlot := by
  have hplot : plotModeMap modeDim numSkills = PlotModeMapResult.raisedValueError := by
    subst hdim
    simp [plotModeMap, Nat.lt_iff_add_one_le] at hskills ⊢
    omega
  refine ⟨hplot, ?_⟩
  intro logInterval st alpha lamda d
  simp [calc_loss, isInterval, hplot]

/-- Witness for C6 amended theorem at mode dimension 2 and 11 skills. -/
theorem plot_palette_fatal_witness :
    (2 = 2 ∧ plotColors.length < 11) ∧
    (plotModeMap 2 11 = PlotModeMapResult.raisedValueError ∧
     ∀ (logInterval : Nat) (st : BatchStats) (alpha lamda : ℚ) (d : Option ℚ),
       calc_loss 2 11 logInterval 0 st alpha lamda d =
         Except.error TrainError.valueErrorPlot) :=
  ⟨⟨rfl, by decide⟩, plot_palette_fatal 2 11 rfl (by decide)⟩

/-- Helper: with mode dimension different from 2 a learn step never raises
and increments the learn-step counter. -/
theorem learn_step_ok_of_dim_ne_two (modeDim numSkills logInterval : Nat)
    (stats : Nat → BatchStats) (alpha lamda : ℚ) (d : Option ℚ) (ls : Nat)
    (hdim : modeDim ≠ 2) :
    learn_step modeDim numSkills logInterval stats alpha lamda d ls =
      Except.ok (ls + 1) := by
  have hplot : plotModeMap modeDim numSkills = PlotModeMapResult.skippedWarning := by
    simp [plotModeMap, hdim]
  unfold learn_step calc_loss
  cases h : isInterval logInterval ls <;> simp [h, hplot]

/-- C7: when the configured mode dimension is not 2, the mode-map plot is
skipped with a warning (returning `None`), and the training loop runs to
completion: every learn step returns normally and all `trainSteps`
iterations execute. -/
theorem plot_skip_training_continues (modeDim numSkills logInterval : Nat)
    (stats : Nat → BatchStats) (alpha lamda : ℚ) (d : Option ℚ)
    (learnSteps trainSteps : Nat) (hdim : modeDim ≠ 2) :
    plotModeMap modeDim numSkills = PlotModeMapResult.skippedWarning ∧
    train modeDim numSkills logInterval stats alpha lamda d learnSteps trainSteps =
      Except.ok (learnSteps + trainSteps) := by
  constructor
  · simp [plotModeMap, hdim]
  · induction trainSteps generalizing learnSteps with
    | zero => simp [train]
    | succ t ih =>
      unfold train
      rw [learn_step_ok_of_dim_ne_two modeDim numSkills logInterval stats alpha lamda d
        learnSteps hdim]
      have hred := ih (learnSteps + 1)
      simp [hred]
      omega

/-- Witness for C7 with mode dimension 3, two skills, logging every step,
and two training iterations. -/
theorem plot_skip_training_continues_witness :
    (3 ≠ 2) ∧
    (plotModeMap 3 2 = PlotModeMapResult.skippedWarning ∧
     train 3 2 1 (fun _ => ⟨0, 0, 0, 0⟩) 0 0 none 0 2 = Except.ok (0 + 2)) :=
  ⟨by decide, plot_skip_training_continues 3 2 1 (fun _ => ⟨0, 0, 0, 0⟩) 0 0 none 0 2
    (by decide)⟩

/-- C8: `set_mode_next` stages a mode switch, touching only the pending
slot `_mode_next` and leaving `_mode` and all other fields unchanged; a
subsequent `update_mode_to_next` commits the staged mode into `_mode`
without changing any other field. -/
theorem mode_two_phase_commit (T : Type) (s : ActionSamplerNoSSM T) (m : T) :
    (s.set_mode_next m).mode = s.mode ∧
    (s.set_mode_next m).actionDecoder = s.actionDecoder ∧
    (s.set_mode_next m).samplePrior = s.samplePrior ∧
    (s.set_mode_next m).toDevice = s.toDevice ∧
    (s.set_mode_next m).modeNext = some (s.toDevice m) ∧
    ((s.set_mode_next m).update_mode_to_next).mode = (s.set_mode_next m).modeNext ∧
    ((s.set_mode_next m).update_mode_to_next).modeNext = (s.set_mode_next m).modeNext ∧
    ((s.set_mode_next m).update_mode_to_next).actionDecoder = s.actionDecoder ∧
    ((s.set_mode_next m).update_mode_to_next).samplePrior = s.samplePrior ∧
    ((s.set_mode_next m).update_mode_to_next).toDevice = s.toDevice :=
  ⟨rfl, rfl, rfl, rfl, rfl, rfl, rfl, rfl, rfl, rfl⟩

/-! ### Counter-list helper lemmas -/

theorem listMax_cons (x : Nat) (xs : List Nat) : listMax (x :: xs) = max x (listMax xs) := rfl

theorem getD_le_listMax (xs : List Nat) (i : Nat) : xs.getD i 0 ≤ listMax xs := by
  induction xs generalizing i with
  | nil => simp [listMax]
  | cons x xs ih =>
    cases i with
    | zero => simp only [List.getD_cons_zero, listMax_cons]; exact le_max_left _ _
    | succ i =>
      simp only [List.getD_cons_succ, listMax_cons]
      exact le_trans (ih i) (le_max_right _ _)

theorem listMax_le (xs : List Nat) (b : Nat) (h : ∀ x ∈ xs, x ≤ b) : listMax xs ≤ b := by
  induction xs with
  | nil => simp [listMax]
  | cons x xs ih =>
    rw [listMax_cons]
    exact max_le (h x (by simp)) (ih fun y hy => h y (by simp [hy]))

theorem le_foldr_min (b x : Nat) (xs : List Nat) (hx : b ≤ x) (h : ∀ y ∈ xs, b ≤ y) :
    b ≤ xs.foldr min x := by
  induction xs with
  | nil => simpa
  | cons y ys ih =>
    simp only [List.foldr_cons]
    exact le_min (h y (by simp)) (ih fun z hz => h z (by simp [hz]))

theorem le_listMin (xs : List Nat) (b : Nat) (hne : xs ≠ []) (h : ∀ x ∈ xs, b ≤ x) :
    b ≤ listMin xs := by
  cases xs with
  | nil => exact absurd rfl hne
  | cons x xs =>
    exact le_foldr_min b x xs (h x (by simp)) fun y hy => h y (by simp [hy])

theorem addAt_cons_zero (x : Nat) (xs : List Nat) (k : Nat) :
    addAt (x :: xs) 0 k = (x + k) :: xs := rfl

theorem addAt_cons_succ (x : Nat) (xs : List Nat) (i k : Nat) :
    addAt (x :: xs) (i + 1) k = x :: addAt xs i k := rfl

theorem addAt_addAt (xs : List Nat) : ∀ i a b, addAt (addAt xs i a) i b = addAt xs i (a + b) := by
  induction xs with
  | nil => intro i a b; rfl
  | cons x xs ih =>
    intro i a b
    cases i with
    | zero => simp [addAt_cons_zero, Nat.add_assoc]
    | succ i => simp [addAt_cons_succ, ih]

theorem length_addAt (xs : List Nat) (i k : Nat) : (addAt xs i k).length = xs.length := by
  simp [addAt]

theorem sum_addAt (xs : List Nat) : ∀ i, i < xs.length → ∀ k, (addAt xs i k).sum = xs.sum + k := by
  induction xs with
  | nil => intro i h; simp at h
  | cons x xs ih =>
    intro i h k
    cases i with
    | zero => simp [addAt_cons_zero]; omega
    | succ i =>
      have hi : i < xs.length := by simpa using h
      simp [addAt_cons_succ, ih i hi k]
      omega

/-! ### The inner rollout loop -/

/-- With the spec-modelled append, the inner loop of
`_sample_equal_skill_dist` starting from buffer length `bufLen` runs until
the buffer reaches `n` and adds exactly `n - bufLen` steps to the counter
of the rolled-out skill. -/
theorem rollout_exact (n : Nat) : ∀ fuel bufLen steps skill, bufLen + 1 ≤ n →
    n ≤ bufLen + fuel + 1 →
    sampleEqualSkillDistLoop n steps skill bufLen fuel =
      some (addAt steps skill (n - bufLen)) := by
  intro fuel
  induction fuel with
  | zero =>
    intro b steps skill h1 h2
    have hb : b + 1 = n := by omega
    unfold sampleEqualSkillDistLoop
    rw [if_pos (getD_le_listMax steps skill)]
    have hnb : n - b = 1 := by omega
    simp [memoryAppend, hb, hnb]
  | succ fuel ih =>
    intro b steps skill h1 h2
    unfold sampleEqualSkillDistLoop
    rw [if_pos (getD_le_listMax steps skill)]
    by_cases hb : b + 1 = n
    · have hnb : n - b = 1 := by omega
      simp [memoryAppend, hb, hnb]
    · have hlt : b + 1 < n := lt_of_le_of_ne h1 hb
      have hrec := ih (b + 1) (addAt steps skill 1) skill (by omega) (by omega)
      simp only [memoryAppend, if_neg (by omega : ¬ b + 1 = n), beq_iff_eq]
      rw [hrec, addAt_addAt]
      congr 2
      omega

/-! ### The outer sampling loop -/

/-- Every skill index below the skill count stays below it after the
per-rollout update. -/
theorem skillUpdate_lt (skill m : Nat) (hm : 1 ≤ m) : skillUpdate skill m < m :=
  lt_of_le_of_lt (min_le_right _ _) (Nat.mod_lt _ (by omega))

/-- Termination with the step budget: as long as the summed counters plus
the remaining fuel times the segment length cover `minSteps`, the outer
loop returns, and the returned counters sum to at least `minSteps`. -/
theorem loop_reaches_min (m n minSteps : Nat) (hm : 1 ≤ m) (hn : 1 ≤ n) :
    ∀ fuel steps skill, steps.length = m → skill < m →
      minSteps ≤ steps.sum + fuel * n →
      ∃ final trace,
        sampleSequencesLoop m n minSteps steps skill fuel = some (final, trace) ∧
        minSteps ≤ final.sum := by
  intro fuel
  induction fuel with
  | zero =>
    intro steps skill hlen hskill hbudget
    have hge : ¬ steps.sum < minSteps := by omega
    refine ⟨steps, [], ?_, by omega⟩
    unfold sampleSequencesLoop
    rw [if_neg hge]
  | succ fuel ih =>
    intro steps skill hlen hskill hbudget
    by_cases hlt : steps.sum < minSteps
    · have hroll : sample_equal_skill_dist n steps skill n = some (addAt steps skill n) := by
        unfold sample_equal_skill_dist
        have := rollout_exact n n 0 steps skill (by omega) (by omega)
        simpa using this
      have hsum2 : (addAt steps skill n).sum = steps.sum + n :=
        sum_addAt steps skill (by omega) n
      have hlen2 : (addAt steps skill n).length = m := by rw [length_addAt]; exact hlen
      have hmul : (fuel + 1) * n = fuel * n + n := by ring
      obtain ⟨final, trace, hloop, hfinal⟩ :=
        ih (addAt steps skill n) (skillUpdate skill m) hlen2 (skillUpdate_lt skill m hm)
          (by omega)
      refine ⟨final, addAt steps skill n :: trace, ?_, hfinal⟩
      unfold sampleSequencesLoop
      rw [if_pos hlt]
      simp [hroll, hloop]
    · refine ⟨steps, [], ?_, by omega⟩
      unfold sampleSequencesLoop
      rw [if_neg hlt]

/-! ### Round-robin profiles -/

theorem roundRobinProfile_zero (m n k : Nat) :
    roundRobinProfile m n k 0 = List.replicate m (k * n) := by
  simp [roundRobinProfile]

theorem roundRobinProfile_succ_cons (m n k j : Nat) :
    roundRobinProfile (m + 1) n k (j + 1) = ((k + 1) * n) :: roundRobinProfile m n k j := by
  simp [roundRobinProfile, List.replicate_succ, Nat.succ_sub_succ]

theorem roundRobinProfile_wrap (m n k : Nat) :
    roundRobinProfile m n k m = roundRobinProfile m n (k + 1) 0 := by
  simp [roundRobinProfile, Nat.sub_self]

theorem addAt_roundRobinProfile (n k : Nat) :
    ∀ j m, j < m →
      addAt (roundRobinProfile m n k j) j n = roundRobinProfile m n k (j + 1) := by
  intro j
  induction j with
  | zero =>
    intro m hm
    obtain ⟨m2, rfl⟩ : ∃ m2, m = m2 + 1 := ⟨m - 1, by omega⟩
    rw [roundRobinProfile_zero, List.replicate_succ, addAt_cons_zero,
      roundRobinProfile_succ_cons, roundRobinProfile_zero]
    congr 1
    ring
  | succ j ih =>
    intro m hm
    obtain ⟨m2, rfl⟩ : ∃ m2, m = m2 + 1 := ⟨m - 1, by omega⟩
    have hj : j < m2 := by omega
    rw [roundRobinProfile_succ_cons, addAt_cons_succ, ih m2 hj,
      ← roundRobinProfile_succ_cons]

theorem mem_roundRobinProfile (m n k j x : Nat) (hx : x ∈ roundRobinProfile m n k j) :
    k * n ≤ x ∧ x ≤ (k + 1) * n := by
  have hkk : k * n ≤ (k + 1) * n := Nat.mul_le_mul (by omega) (le_refl n)
  rcases List.mem_append.mp hx with h | h
  · rw [List.eq_of_mem_replicate h]
    exact ⟨hkk, le_refl _⟩
  · rw [List.eq_of_mem_replicate h]
    exact ⟨le_refl _, hkk⟩

theorem length_roundRobinProfile (m n k j : Nat) (hj : j ≤ m) :
    (roundRobinProfile m n k j).length = m := by
  simp [roundRobinProfile]
  omega

/-- Every counter in a round-robin profile lies between `k * n` and
`(k + 1) * n`, so the spread of a profile is at most one segment. -/
theorem roundRobinProfile_balanced (m n k j : Nat) (hm : 1 ≤ m) (hj : j ≤ m) :
    listMax (roundRobinProfile m n k j) - listMin (roundRobinProfile m n k j) ≤ n := by
  have hmax : listMax (roundRobinProfile m n k j) ≤ (k + 1) * n :=
    listMax_le _ _ fun x hx => (mem_roundRobinProfile m n k j x hx).2
  have hne : roundRobinProfile m n k j ≠ [] := by
    intro hnil
    have := length_roundRobinProfile m n k j hj
    rw [hnil] at this
    simp at this
    omega
  have hmin : k * n ≤ listMin (roundRobinProfile m n k j) :=
    le_listMin _ _ hne fun x hx => (mem_roundRobinProfile m n k j x hx).1
  have hkn : (k + 1) * n = k * n + n := by ring
  omega

/-- The pause-point invariant: starting from any round-robin profile with
the matching current skill, every state recorded after a rollout is again
bounded, with spread at most one segment length. -/
theorem loop_trace_balanced (m n minSteps : Nat) (hm : 1 ≤ m) (hn : 1 ≤ n) :
    ∀ fuel k j, j < m →
      ∀ final trace,
        sampleSequencesLoop m n minSteps (roundRobinProfile m n k j) j fuel =
          some (final, trace) →
        ∀ s ∈ trace, listMax s - listMin s ≤ n := by
  intro fuel
  induction fuel with
  | zero =>
    intro k j hj final trace hloop s hs
    unfold sampleSequencesLoop at hloop
    by_cases hlt : (roundRobinProfile m n k j).sum < minSteps
    · rw [if_pos hlt] at hloop
      exact absurd hloop (by simp)
    · rw [if_neg hlt] at hloop
      rw [Option.some_inj, Prod.ext_iff] at hloop
      have htr : ([] : List (List Nat)) = trace := hloop.2
      rw [← htr] at hs
      simp at hs
  | succ fuel ih =>
    intro k j hj final trace hloop s hs
    unfold sampleSequencesLoop at hloop
    by_cases hlt : (roundRobinProfile m n k j).sum < minSteps
    · rw [if_pos hlt] at hloop
      have hroll : sample_equal_skill_dist n (roundRobinProfile m n k j) j n =
          some (addAt (roundRobinProfile m n k j) j n) := by
        unfold sample_equal_skill_dist
        have := rollout_exact n n 0 (roundRobinProfile m n k j) j (by omega) (by omega)
        simpa using this
      rw [hroll] at hloop
      have hstep : addAt (roundRobinProfile m n k j) j n = roundRobinProfile m n k (j + 1) :=
        addAt_roundRobinProfile n k j m hj
      simp only [hstep] at hloop
      have hupd : skillUpdate j m = (j + 1) % m := min_eq_right (Nat.mod_le _ _)
      cases hrec : sampleSequencesLoop m n minSteps (roundRobinProfile m n k (j + 1))
          (skillUpdate j m) fuel with
      | none => rw [hrec] at hloop; exact absurd hloop (by simp)
      | some p =>
        obtain ⟨f2, t2⟩ := p
        rw [hrec] at hloop
        simp at hloop
        obtain ⟨-, htr⟩ := hloop
        rw [← htr] at hs
        rcases List.mem_cons.mp hs with rfl | hs2
        · exact roundRobinProfile_balanced m n k (j + 1) hm (by omega)
        · by_cases hjm : j + 1 < m
          · have hmod : (j + 1) % m = j + 1 := Nat.mod_eq_of_lt hjm
            rw [hupd, hmod] at hrec
            exact ih k (j + 1) hjm f2 t2 hrec s hs2
          · have hjm2 : j + 1 = m := by omega
            have hmod : (j + 1) % m = 0 := by rw [hjm2]; exact Nat.mod_self m
            rw [hupd, hmod, hjm2, roundRobinProfile_wrap] at hrec
            exact ih (k + 1) 0 (by omega) f2 t2 hrec s hs2
    · rw [if_neg hlt] at hloop
      rw [Option.some_inj, Prod.ext_iff] at hloop
      have htr : ([] : List (List Nat)) = trace := hloop.2
      rw [← htr] at hs
      simp at hs

/-- C3: at every pause point of the sampling phase, i.e. after each return
from a per-skill rollout call inside `_sample_sequences`, the per-skill
step counters differ by at most one rollout segment of `num_sequences`
steps. -/
theorem sample_sequences_pause_balanced (m n minSteps fuel : Nat)
    (hm : 1 ≤ m) (hn : 1 ≤ n) (final : List Nat) (trace : List (List Nat))
    (hrun : sample_sequences m n minSteps fuel = some (final, trace)) :
    ∀ s ∈ trace, listMax s - listMin s ≤ n := by
  have h0 : List.replicate m 0 = roundRobinProfile m n 0 0 := by
    simp [roundRobinProfile]
  unfold sample_sequences at hrun
  rw [h0] at hrun
  exact loop_trace_balanced m n minSteps hm hn fuel 0 0 (by omega) final trace hrun

/-- Witness for C3: two skills, segment length 3, threshold 10; the four
pause-point counter states each have spread at most 3. -/
theorem sample_sequences_pause_balanced_witness :
    (1 ≤ 2 ∧ 1 ≤ 3 ∧
      sample_sequences 2 3 10 10 = some ([6, 6], [[3, 0], [3, 3], [6, 3], [6, 6]])) ∧
    (∀ s ∈ [[3, 0], [3, 3], [6, 3], ([6, 6] : List Nat)], listMax s - listMin s ≤ 3) :=
  ⟨⟨by decide, by decide, by decide⟩,
   sample_sequences_pause_balanced 2 3 10 10 (by decide) (by decide)
     [6, 6] [[3, 0], [3, 3], [6, 3], [6, 6]] (by decide)⟩

/-- C4: with the spec-modelled append committing a sequence after every
`num_sequences` consecutive appends (so each rollout call adds `n ≥ 1`
steps), the sampling phase terminates with fuel `minSteps`, and on
termination the per-skill counters sum to at least `min_steps_sampling`. -/
theorem sample_sequences_terminates_min (m n minSteps : Nat)
    (hm : 1 ≤ m) (hn : 1 ≤ n) :
    ∃ final trace,
      sample_sequences m n minSteps minSteps = some (final, trace) ∧
      minSteps ≤ final.sum := by
  unfold sample_sequences
  apply loop_reaches_min m n minSteps hm hn minSteps (List.replicate m 0) 0
  · simp
  · omega
  · have h1 : minSteps * 1 ≤ minSteps * n := Nat.mul_le_mul (le_refl minSteps) hn
    simp [List.sum_replicate]
    omega

/-- Witness for C4, the end-to-end scenario of the spec: two skills and
`min_steps_sampling = 100`. -/
theorem sample_sequences_terminates_min_witness :
    (1 ≤ 2 ∧ 1 ≤ 3) ∧
    (∃ final trace,
      sample_sequences 2 3 100 100 = some (final, trace) ∧
      100 ≤ final.sum) :=
  ⟨⟨by decide, by decide⟩, sample_sequences_terminates_min 2 3 100 (by decide) (by decide)⟩

/-- C10: in `_sample_equal_skill_dist` the guard
`self.steps[skill] <= np.max(self.steps)` always holds, because the
counter of the rolled-out skill is one of the values the maximum ranges
over; hence the loop exits only through the break taken when
`memory.append` commits a sequence, and each call appends exactly one full
sequence of `n` steps to the counter of that skill. -/
theorem rollout_guard_and_single_sequence (steps : List Nat) (skill n fuel : Nat)
    (hskill : skill < steps.length) (hn : 1 ≤ n) (hfuel : n ≤ fuel + 1) :
    steps.getD skill 0 ≤ listMax steps ∧
    sample_equal_skill_dist n steps skill fuel = some (addAt steps skill n) := by
  refine ⟨getD_le_listMax steps skill, ?_⟩
  unfold sample_equal_skill_dist
  have := rollout_exact n fuel 0 steps skill (by omega) (by omega)
  simpa using this

/-- Witness for C10 at counters [2, 5], skill 0, segment length 3. -/
theorem rollout_guard_and_single_sequence_witness :
    (0 < ([2, 5] : List Nat).length ∧ 1 ≤ 3 ∧ 3 ≤ 3 + 1) ∧
    (([2, 5] : List Nat).getD 0 0 ≤ listMax [2, 5] ∧
     sample_equal_skill_dist 3 [2, 5] 0 3 = some (addAt [2, 5] 0 3)) :=
  ⟨⟨by decide, by decide, by decide⟩,
   rollout_guard_and_single_sequence [2, 5] 0 3 3 (by decide) (by decide) (by decide)⟩

/-- C9: the composite loss is a deterministic function of the network
parameter snapshots, the sampled batch, alpha, lambda and the configured
KL set-point, given the generator state fixed by `_set_seed` at
construction: two trainers seeded with the same seed and agreeing on those
inputs return the same loss even if every peripheral field (run id, log
directory, learn-step counter) differs. -/
theorem calc_loss_deterministic (forward : Nat → Nat → Nat → Nat → BatchStats)
    (t1 t2 : TrainerState) (batch seed : Nat)
    (hobs : t1.obsEncoderParams = t2.obsEncoderParams)
    (hmode : t1.modeModelParams = t2.modeModelParams)
    (halpha : t1.alpha = t2.alpha)
    (hlamda : t1.lamda = t2.lamda)
    (hdes : t1.kldDiffDesired = t2.kldDiffDesired) :
    calc_loss_trainer forward (set_seed seed t1) batch =
      calc_loss_trainer forward (set_seed seed t2) batch := by
  simp [calc_loss_trainer, set_seed, hobs, hmode, halpha, hlamda, hdes]

/-- Witness for C9: two trainer states differing in run id, log directory
and learn-step counter but seeded alike and agreeing on parameters, batch
and hyperparameters give the same loss. -/
theorem calc_loss_deterministic_witness :
    (TrainerState.obsEncoderParams ⟨0, 0, 0, 0, 1/2, 1, some 2, 4, 5, 7, 8, 9⟩ =
       TrainerState.obsEncoderParams ⟨3, 3, 3, 3, 1/2, 1, some 2, 4, 5, 17, 18, 19⟩) ∧
    calc_loss_trainer (fun a b c d => ⟨(a + b : ℕ), (c : ℕ), (d : ℕ), 1⟩)
        (set_seed 11 ⟨0, 0, 0, 0, 1/2, 1, some 2, 4, 5, 7, 8, 9⟩) 6 =
      calc_loss_trainer (fun a b c d => ⟨(a + b : ℕ), (c : ℕ), (d : ℕ), 1⟩)
        (set_seed 11 ⟨3, 3, 3, 3, 1/2, 1, some 2, 4, 5, 17, 18, 19⟩) 6 :=
  ⟨rfl,
   calc_loss_deterministic (fun a b c d => ⟨(a + b : ℕ), (c : ℕ), (d : ℕ), 1⟩)
     ⟨0, 0, 0, 0, 1/2, 1, some 2, 4, 5, 7, 8, 9⟩
     ⟨3, 3, 3, 3, 1/2, 1, some 2, 4, 5, 17, 18, 19⟩ 6 11 rfl rfl rfl rfl rfl⟩

end ModeDisent
